import Mathlib

/-!
Shallow embedding of the cloth simulation engine in `src/src/main.cpp`
(the second, extended `PhysicsWorld` — the version with eight solvers,
lines 314-905 of the file; the claims' line references all point there).

Machine `float` values are modelled as rationals.  The only genuinely
irrational operation, `std::sqrt`, is abstracted as an explicit function
parameter `sq : ℚ → ℚ`: every property proved here holds for an arbitrary
model of the float square root, and none of the verified claims depends on
the value `sq` returns — only on the control flow around it.
-/

namespace Sim

/-- `Vec3` from the source: three float components. -/
structure Vec3 where
  x : ℚ
  y : ℚ
  z : ℚ
deriving DecidableEq, Repr

instance : Add Vec3 where
  add a b := ⟨a.x + b.x, a.y + b.y, a.z + b.z⟩

instance : Sub Vec3 where
  sub a b := ⟨a.x - b.x, a.y - b.y, a.z - b.z⟩

/-- `Vec3::operator*(float)` — componentwise scalar multiplication. -/
def Vec3.smul (a : Vec3) (s : ℚ) : Vec3 := ⟨a.x * s, a.y * s, a.z * s⟩

theorem Vec3.add_def (a b : Vec3) : a + b = ⟨a.x + b.x, a.y + b.y, a.z + b.z⟩ := rfl

theorem Vec3.sub_def (a b : Vec3) : a - b = ⟨a.x - b.x, a.y - b.y, a.z - b.z⟩ := rfl

/-- `Vec3::length()` is `sqrt(x*x + y*y + z*z)`; `sq` models the float sqrt. -/
def Vec3.length (sq : ℚ → ℚ) (v : Vec3) : ℚ :=
  sq (v.x * v.x + v.y * v.y + v.z * v.z)

/-- `Particle` from the source (the `float padding` layout filler is omitted). -/
structure Particle where
  pos : Vec3
  old_pos : Vec3
  acc : Vec3
  vel : Vec3
  mass : ℚ
  is_pinned : ℚ
  prev_dt : ℚ
deriving DecidableEq, Repr

/-- Default-constructed `Particle` (used as the out-of-range read default). -/
def defaultParticle : Particle :=
  { pos := ⟨0, 0, 0⟩, old_pos := ⟨0, 0, 0⟩, acc := ⟨0, 0, 0⟩, vel := ⟨0, 0, 0⟩,
    mass := 1, is_pinned := 0, prev_dt := 1/60 }

/-- `Spring` from the source. -/
structure Spring where
  p1 : Int
  p2 : Int
  rest_len : ℚ
  k : ℚ
  damp : ℚ
deriving DecidableEq, Repr

def defaultSpring : Spring := ⟨0, 0, 0, 0, 0⟩

/-- `SolverType` enum, values 0-7 in declaration order. -/
inductive SolverType where
  | explicitEuler
  | symplecticEuler
  | verlet
  | tcVerlet
  | rk2
  | rk4
  | implicitEuler
  | velocityVerlet
deriving DecidableEq, Repr

/-- `static_cast<SolverType>(type)` in `set_solver`, defined for the enum's
declared values 0-7 (any other argument is undefined behaviour in the
source; the model returns the first enumerator there). -/
def SolverType.ofInt : Int → SolverType
  | 0 => .explicitEuler
  | 1 => .symplecticEuler
  | 2 => .verlet
  | 3 => .tcVerlet
  | 4 => .rk2
  | 5 => .rk4
  | 6 => .implicitEuler
  | 7 => .velocityVerlet
  | _ => .explicitEuler

/-- The `PhysicsWorld` state: particle/spring store plus configuration. -/
structure PhysicsWorld where
  particles : List Particle
  springs : List Spring
  adjacency_list : List (List Nat)
  gravity : Vec3
  wind : Vec3
  global_damping : ℚ
  sub_steps : Nat
  current_solver : SolverType
  fixed_dt : ℚ
  accumulator : ℚ
  sim_dt : ℚ
  use_ticks : Bool
deriving DecidableEq, Repr

/-- The default-constructed world (member initialisers of the source). -/
def PhysicsWorld.init : PhysicsWorld :=
  { particles := [], springs := [], adjacency_list := [],
    gravity := ⟨0, -981/100, 0⟩, wind := ⟨0, 0, 0⟩,
    global_damping := 99/100, sub_steps := 8,
    current_solver := .verlet,
    fixed_dt := 1/60, accumulator := 0, sim_dt := 1/60, use_ticks := false }

/-- In `i < particles.size()` the `int i` is converted to the 32-bit
unsigned `size_t` of the wasm32 target, i.e. compared as `i mod 2^32`. -/
def u32of (i : Int) : Int := i % 4294967296

/-- `set_pinned(i, pin)`: guarded write of the pin flag, snapping
`old_pos` to `pos`. -/
def set_pinned (w : PhysicsWorld) (i : Int) (pin : Bool) : PhysicsWorld :=
  if 0 ≤ i ∧ u32of i < (w.particles.length : Int) then
    let p := w.particles.getD i.toNat defaultParticle
    let p' := { p with is_pinned := ((if pin then 1 else 0) : ℚ), old_pos := p.pos }
    { w with particles := w.particles.set i.toNat p' }
  else w

/-- `set_particle_pos(i, x, y, z)`: writes `pos` and `old_pos`.  The source
guard is only `i < particles.size()`, an unsigned comparison. -/
def set_particle_pos (w : PhysicsWorld) (i : Int) (x y z : ℚ) : PhysicsWorld :=
  if u32of i < (w.particles.length : Int) then
    let p := w.particles.getD i.toNat defaultParticle
    let p' := { p with pos := (⟨x, y, z⟩ : Vec3), old_pos := (⟨x, y, z⟩ : Vec3) }
    { w with particles := w.particles.set i.toNat p' }
  else w

/-- `is_pinned(i)`: guarded read, `false` out of range. -/
def is_pinned (w : PhysicsWorld) (i : Int) : Bool :=
  if 0 ≤ i ∧ u32of i < (w.particles.length : Int) then
    decide ((w.particles.getD i.toNat defaultParticle).is_pinned > 1/2)
  else false

/-- `set_solver(type)`. -/
def set_solver (w : PhysicsWorld) (t : Int) : PhysicsWorld :=
  { w with current_solver := SolverType.ofInt t }

/-- Per-particle body of `apply_forces`: non-pinned particles accumulate
`gravity + wind` into `acc`. -/
def apply_forces_p (gravity wind : Vec3) (p : Particle) : Particle :=
  if p.is_pinned > 1/2 then p else { p with acc := p.acc + gravity + wind }

/-- `apply_forces()`. -/
def apply_forces (w : PhysicsWorld) : PhysicsWorld :=
  { w with particles := w.particles.map (apply_forces_p w.gravity w.wind) }

/-- Body of the `solve_springs` loop for one spring: Hooke force plus
axial damping from the explicit velocities, accumulated into the two
endpoint accelerations (each write guarded by the endpoint's pin flag).
Springs whose endpoint separation length is below `0.0001` are skipped. -/
def springStep (sq : ℚ → ℚ) (ps : List Particle) (s : Spring) : List Particle :=
  let p1 := ps.getD s.p1.toNat defaultParticle
  let p2 := ps.getD s.p2.toNat defaultParticle
  let delta := p1.pos - p2.pos
  let len := Vec3.length sq delta
  if len < 1/10000 then ps
  else
    let spring_force := (len - s.rest_len) * s.k
    let dir := delta.smul (1 / len)
    let rel_vel := p1.vel - p2.vel
    let vel_along_spring := rel_vel.x * dir.x + rel_vel.y * dir.y + rel_vel.z * dir.z
    let damp_force := vel_along_spring * s.damp
    let total_force := dir.smul (spring_force + damp_force)
    let ps1 :=
      if p1.is_pinned < 1/2 then
        ps.set s.p1.toNat ({ p1 with acc := p1.acc - total_force.smul (1 / p1.mass) })
      else ps
    let q2 := ps1.getD s.p2.toNat defaultParticle
    if q2.is_pinned < 1/2 then
      ps1.set s.p2.toNat ({ q2 with acc := q2.acc + total_force.smul (1 / q2.mass) })
    else ps1

/-- `solve_springs(dt)` (the `dt` parameter is unused in this version of
the source, which damps against the explicit `vel` fields). -/
def solve_springs (sq : ℚ → ℚ) (w : PhysicsWorld) (_dt : ℚ) : PhysicsWorld :=
  { w with particles := w.springs.foldl (springStep sq) w.particles }

/-- Per-particle body of `integrate_verlet`. -/
def verlet_p (gd dt : ℚ) (p : Particle) : Particle :=
  if p.is_pinned > 1/2 then p
  else
    let temp_pos := p.pos
    let vel_vec := (p.pos - p.old_pos).smul gd
    let new_pos := p.pos + vel_vec + p.acc.smul (dt * dt)
    { p with pos := new_pos, old_pos := temp_pos,
             vel := (new_pos - temp_pos).smul (1 / dt), acc := ⟨0, 0, 0⟩ }

def integrate_verlet (w : PhysicsWorld) (dt : ℚ) : PhysicsWorld :=
  { w with particles := w.particles.map (verlet_p w.global_damping dt) }

/-- Per-particle body of `integrate_tc_verlet` (time-corrected Verlet). -/
def tc_verlet_p (gd dt : ℚ) (p : Particle) : Particle :=
  if p.is_pinned > 1/2 then p
  else
    let dt_prev0 := p.prev_dt
    let dt_prev := if dt_prev0 < 1/100000 then dt else dt_prev0
    let expansion := ((p.pos - p.old_pos).smul (dt / dt_prev)).smul gd
    let new_pos := p.pos + expansion + p.acc.smul (dt * (dt + dt_prev) * (1/2))
    { p with pos := new_pos, old_pos := p.pos,
             vel := (new_pos - p.pos).smul (1 / dt), prev_dt := dt, acc := ⟨0, 0, 0⟩ }

def integrate_tc_verlet (w : PhysicsWorld) (dt : ℚ) : PhysicsWorld :=
  { w with particles := w.particles.map (tc_verlet_p w.global_damping dt) }

/-- Per-particle body of `integrate_explicit_euler`. -/
def explicit_euler_p (gd dt : ℚ) (p : Particle) : Particle :=
  if p.is_pinned > 1/2 then p
  else
    let pos1 := p.pos + p.vel.smul dt
    let vel1 := (p.vel + p.acc.smul dt).smul gd
    { p with pos := pos1, vel := vel1, old_pos := pos1, acc := ⟨0, 0, 0⟩ }

def integrate_explicit_euler (w : PhysicsWorld) (dt : ℚ) : PhysicsWorld :=
  { w with particles := w.particles.map (explicit_euler_p w.global_damping dt) }

/-- Per-particle body of `integrate_symplectic_euler`. -/
def symplectic_euler_p (gd dt : ℚ) (p : Particle) : Particle :=
  if p.is_pinned > 1/2 then p
  else
    let vel1 := (p.vel + p.acc.smul dt).smul gd
    let pos1 := p.pos + vel1.smul dt
    { p with vel := vel1, pos := pos1, old_pos := pos1, acc := ⟨0, 0, 0⟩ }

def integrate_symplectic_euler (w : PhysicsWorld) (dt : ℚ) : PhysicsWorld :=
  { w with particles := w.particles.map (symplectic_euler_p w.global_damping dt) }

/-- Per-particle body of `integrate_implicit_euler` — the dedicated
implicit-Euler routine of the source.  Note: it is `vel += acc*dt` with
no damping factor (the `* 0.99f` line is commented out in the source),
and `step`'s dispatch never calls it. -/
def implicit_euler_p (dt : ℚ) (p : Particle) : Particle :=
  if p.is_pinned > 1/2 then p
  else
    let vel1 := p.vel + p.acc.smul dt
    let pos1 := p.pos + vel1.smul dt
    { p with vel := vel1, pos := pos1, old_pos := pos1 - vel1.smul dt, acc := ⟨0, 0, 0⟩ }

def integrate_implicit_euler (w : PhysicsWorld) (dt : ℚ) : PhysicsWorld :=
  { w with particles := w.particles.map (implicit_euler_p dt) }

/-- Per-particle body of `integrate_velocity_verlet_pass1`: half kick,
position drift, `old_pos` snapped to the new position; `acc` is kept for
the second pass' context. -/
def vv_pass1_p (dt : ℚ) (p : Particle) : Particle :=
  if p.is_pinned > 1/2 then p
  else
    let vel1 := p.vel + p.acc.smul (dt * (1/2))
    let pos1 := p.pos + vel1.smul dt
    { p with vel := vel1, pos := pos1, old_pos := pos1 }

def integrate_velocity_verlet_pass1 (w : PhysicsWorld) (dt : ℚ) : PhysicsWorld :=
  { w with particles := w.particles.map (vv_pass1_p dt) }

/-- Per-particle body of `integrate_velocity_verlet_pass2`: second half
kick, global damping, acceleration reset. -/
def vv_pass2_p (gd dt : ℚ) (p : Particle) : Particle :=
  if p.is_pinned > 1/2 then p
  else
    let vel1 := (p.vel + p.acc.smul (dt * (1/2))).smul gd
    { p with vel := vel1, acc := ⟨0, 0, 0⟩ }

def integrate_velocity_verlet_pass2 (w : PhysicsWorld) (dt : ℚ) : PhysicsWorld :=
  { w with particles := w.particles.map (vv_pass2_p w.global_damping dt) }

/-- Body of the incident-spring loop inside `get_acceleration`: adds one
spring's force to the running total `tf`, skipping the spring when the
separation length is below `0.0001`. -/
def accumSpringForce (sq : ℚ → ℚ) (w : PhysicsWorld) (ps : List Particle)
    (p_idx : Nat) (pos vel : Vec3) (tf : Vec3) (s_idx : Nat) : Vec3 :=
  let s := w.springs.getD s_idx defaultSpring
  let other_idx := if s.p1 = (p_idx : Int) then s.p2 else s.p1
  let other_p := ps.getD other_idx.toNat defaultParticle
  let delta := pos - other_p.pos
  let dist := Vec3.length sq delta
  if dist < 1/10000 then tf
  else
    let dir := delta.smul (1 / dist)
    let displacement := dist - s.rest_len
    let spring_force := displacement * s.k
    let rel_vel := vel - other_p.vel
    let vel_along_spring := rel_vel.x * dir.x + rel_vel.y * dir.y + rel_vel.z * dir.z
    let damp_force := vel_along_spring * s.damp
    tf + dir.smul (-(spring_force + damp_force))

/-- `get_acceleration(p_idx, pos, vel, dt)`: the stage-local force
evaluation used by the RK integrators; reads neighbours through the
adjacency index from the (possibly mid-update) particle list `ps`. -/
def get_acceleration (sq : ℚ → ℚ) (w : PhysicsWorld) (ps : List Particle)
    (p_idx : Nat) (pos vel : Vec3) : Vec3 :=
  let p := ps.getD p_idx defaultParticle
  let base := w.gravity + w.wind - vel.smul w.global_damping
  let my_springs := w.adjacency_list.getD p_idx []
  let total := my_springs.foldl (accumSpringForce sq w ps p_idx pos vel) base
  total.smul (1 / p.mass)

/-- Body of the `integrate_rk2` loop for one particle index. -/
def rk2_step (sq : ℚ → ℚ) (w : PhysicsWorld) (dt : ℚ)
    (ps : List Particle) (i : Nat) : List Particle :=
  let p := ps.getD i defaultParticle
  if p.is_pinned > 1/2 then ps
  else
    let x0 := p.pos
    let v0 := p.vel
    let a1 := get_acceleration sq w ps i x0 v0
    let x_mid := x0 + v0.smul (dt * (1/2))
    let v_mid := v0 + a1.smul (dt * (1/2))
    let a2 := get_acceleration sq w ps i x_mid v_mid
    let pos1 := x0 + v_mid.smul dt
    let vel1 := v0 + a2.smul dt
    let p' := { p with pos := pos1, vel := vel1,
                       old_pos := pos1 - vel1.smul dt, acc := (⟨0, 0, 0⟩ : Vec3) }
    ps.set i p'

def integrate_rk2 (sq : ℚ → ℚ) (w : PhysicsWorld) (dt : ℚ) : PhysicsWorld :=
  { w with particles :=
      (List.range w.particles.length).foldl (rk2_step sq w dt) w.particles }

/-- Body of the `integrate_rk4` loop for one particle index. -/
def rk4_step (sq : ℚ → ℚ) (w : PhysicsWorld) (dt : ℚ)
    (ps : List Particle) (i : Nat) : List Particle :=
  let p := ps.getD i defaultParticle
  if p.is_pinned > 1/2 then ps
  else
    let x := p.pos
    let v := p.vel
    let a1 := get_acceleration sq w ps i x v
    let v1 := v
    let x2 := x + v1.smul (dt * (1/2))
    let v2 := v + a1.smul (dt * (1/2))
    let a2 := get_acceleration sq w ps i x2 v2
    let x3 := x + v2.smul (dt * (1/2))
    let v3 := v + a2.smul (dt * (1/2))
    let a3 := get_acceleration sq w ps i x3 v3
    let x4 := x + v3.smul dt
    let v4 := v + a3.smul dt
    let a4 := get_acceleration sq w ps i x4 v4
    let pos1 := x + (v1 + v2.smul 2 + v3.smul 2 + v4).smul (dt / 6)
    let vel1 := v + (a1 + a2.smul 2 + a3.smul 2 + a4).smul (dt / 6)
    let p' := { p with pos := pos1, vel := vel1,
                       old_pos := pos1 - vel1.smul dt, acc := (⟨0, 0, 0⟩ : Vec3) }
    ps.set i p'

def integrate_rk4 (sq : ℚ → ℚ) (w : PhysicsWorld) (dt : ℚ) : PhysicsWorld :=
  { w with particles :=
      (List.range w.particles.length).foldl (rk4_step sq w dt) w.particles }

/-- Per-particle body of `solve_constraints`: the ground-plane clamp.
Note the source has no pin-flag check here. -/
def solve_constraints_p (p : Particle) : Particle :=
  if p.pos.y > 900 then
    { p with pos := { p.pos with y := 900 }, old_pos := { p.old_pos with y := 900 } }
  else p

def solve_constraints (w : PhysicsWorld) : PhysicsWorld :=
  { w with particles := w.particles.map solve_constraints_p }

/-- The particle constructed for grid cell `(y, x)` of `create_cloth`:
row-major positions `(sx + x*sep, sy - y*sep, sz)`, anchors pinned where
`y == 0 && (x == 0 || x == w - 1)`. -/
def mkClothParticle (sx sy sz sep : ℚ) (w : Nat) (y x : Nat) : Particle :=
  { pos := ⟨sx + x * sep, sy - y * sep, sz⟩,
    old_pos := ⟨sx + x * sep, sy - y * sep, sz⟩,
    acc := ⟨0, 0, 0⟩, vel := ⟨0, 0, 0⟩, mass := 1,
    is_pinned := if y = 0 ∧ (x = 0 ∨ x = w - 1) then 1 else 0, prev_dt := 1/60 }

/-- The particle list produced by the first double loop of `create_cloth`. -/
def clothParticles (sx sy sz sep : ℚ) (w h : Nat) : List Particle :=
  (List.range h).flatMap fun y => (List.range w).map fun x =>
    mkClothParticle sx sy sz sep w y x

/-- Accumulator of the spring loop: spring list plus adjacency index. -/
structure BuildState where
  springs : List Spring
  adj : List (List Nat)
deriving DecidableEq, Repr

/-- The `add_spring` lambda of `create_cloth`: push the spring, then push
its index onto both endpoints' adjacency rows. -/
def add_spring (k damp : ℚ) (st : BuildState) (p1 p2 : Int) (len : ℚ) : BuildState :=
  let springs1 := st.springs ++ [⟨p1, p2, len, k, damp⟩]
  let s_idx := springs1.length - 1
  let adj1 := st.adj.set p1.toNat (st.adj.getD p1.toNat [] ++ [s_idx])
  let adj2 := adj1.set p2.toNat (adj1.getD p2.toNat [] ++ [s_idx])
  ⟨springs1, adj2⟩

/-- The spring-loop body of `create_cloth` for grid cell `(y, x)`:
structural spring to the left neighbour, structural spring to the
neighbour above, and the two diagonal shear springs with rest length
`sqrt2 * sep` (in the source `sqrt2` is `std::sqrt(2.0f)`). -/
def clothCell (k damp sqrt2 sep : ℚ) (w : Nat) (st : BuildState) (y x : Nat) : BuildState :=
  let i : Int := ((y * w + x : Nat) : Int)
  let st1 := if 0 < x then add_spring k damp st i (i - 1) sep else st
  let st2 := if 0 < y then add_spring k damp st1 i (i - w) sep else st1
  let st3 := if 0 < x ∧ 0 < y then add_spring k damp st2 i (i - w - 1) (sqrt2 * sep) else st2
  if x < w - 1 ∧ 0 < y then add_spring k damp st3 i (i - w + 1) (sqrt2 * sep) else st3

/-- The full spring loop of `create_cloth`. -/
def clothBuild (k damp sqrt2 sep : ℚ) (w h : Nat) : BuildState :=
  (List.range h).foldl
    (fun st y => (List.range w).foldl (fun st2 x => clothCell k damp sqrt2 sep w st2 y x) st)
    ⟨[], List.replicate (w * h) []⟩

/-- `create_cloth(sx, sy, sz, w, h, sep, k, damp)`: clear the store, build
the particle grid, resize the adjacency index, and run the spring loop. -/
def create_cloth (sq : ℚ → ℚ) (wld : PhysicsWorld) (sx sy sz : ℚ) (w h : Nat)
    (sep k damp : ℚ) : PhysicsWorld :=
  let ps := clothParticles sx sy sz sep w h
  let bs := clothBuild k damp (sq 2) sep w h
  { wld with particles := ps, springs := bs.springs, adjacency_list := bs.adj }

/-- One iteration of the sub-step loop inside `step`, translated from the
source's control flow: the Velocity-Verlet branch interleaves the
constraint pass and the force evaluation between the two half-step
passes and skips the rest of the loop body (`continue`); every other
solver runs forces, springs, the dispatched integrator, and then the
constraint pass unless the solver is RK2 or RK4.  `SOLVER_IMPLICIT_EULER`
dispatches to `integrate_symplectic_euler` in the source. -/
def subStep (sq : ℚ → ℚ) (sub_dt : ℚ) (w : PhysicsWorld) : PhysicsWorld :=
  match w.current_solver with
  | .velocityVerlet =>
      let w1 := integrate_velocity_verlet_pass1 w sub_dt
      let w2 := solve_constraints w1
      let w3 := solve_springs sq (apply_forces w2) sub_dt
      integrate_velocity_verlet_pass2 w3 sub_dt
  | s =>
      let w1 := solve_springs sq (apply_forces w) sub_dt
      let w2 :=
        match s with
        | .explicitEuler => integrate_explicit_euler w1 sub_dt
        | .symplecticEuler => integrate_symplectic_euler w1 sub_dt
        | .verlet => integrate_verlet w1 sub_dt
        | .tcVerlet => integrate_tc_verlet w1 sub_dt
        | .rk2 => integrate_rk2 sq w1 sub_dt
        | .rk4 => integrate_rk4 sq w1 sub_dt
        | .implicitEuler => integrate_symplectic_euler w1 sub_dt
        | .velocityVerlet => w1
      if s = .rk2 ∨ s = .rk4 then w2 else solve_constraints w2

/-- `step(dt)`: clamp `dt` to `0.05`, divide by `sub_steps`, and run the
sub-step loop `sub_steps` times. -/
def step (sq : ℚ → ℚ) (w : PhysicsWorld) (dt : ℚ) : PhysicsWorld :=
  let dtc := min dt (1/20)
  let sub_dt := dtc / (w.sub_steps : ℚ)
  Nat.iterate (subStep sq sub_dt) w.sub_steps w

/-- The C cast `static_cast<int>(q)` on a float: truncation toward zero. -/
def truncInt (q : ℚ) : Int := if 0 ≤ q then Int.floor q else Int.ceil q

/-- `update(frame_dt)`: with `use_ticks == false` (tick mode) run
`step(sim_dt)` `max(1, (int)(frame_dt / sim_dt))` times; with
`use_ticks == true` (single-tick mode) run `step(sim_dt)` once.  The loop
re-reads the `sim_dt` member each iteration, as the source does. -/
def update (sq : ℚ → ℚ) (w : PhysicsWorld) (frame_dt : ℚ) : PhysicsWorld :=
  if w.use_ticks = false then
    let ticks : Int := max 1 (truncInt (frame_dt / w.sim_dt))
    Nat.iterate (fun v => step sq v v.sim_dt) ticks.toNat w
  else
    step sq w w.sim_dt

/-! ### List access helper lemmas -/

theorem getD_set_ne {α : Type} (l : List α) (i j : Nat) (a d : α) (h : j ≠ i) :
    (l.set i a).getD j d = l.getD j d := by
  simp [List.getD_eq_getElem?_getD, List.getElem?_set_ne (Ne.symm h)]

theorem getD_set_self {α : Type} (l : List α) (i : Nat) (a d : α) (h : i < l.length) :
    (l.set i a).getD i d = a := by
  rw [List.getD_eq_getElem?_getD, List.getElem?_set_self']
  simp [List.getElem?_eq_getElem h]

theorem getD_oob {α : Type} (l : List α) (i : Nat) (d : α) (h : l.length ≤ i) :
    l.getD i d = d :=
  List.getD_eq_default l d h

theorem getD_map {α : Type} (f : α → α) (l : List α) (i : Nat) (d : α)
    (h : i < l.length) : (l.map f).getD i d = f (l.getD i d) := by
  simp [List.getD_eq_getElem?_getD, List.getElem?_map, List.getElem?_eq_getElem h]

/-- A map by a function that fixes the element at `i` leaves `getD i` alone. -/
theorem getD_map_fix (f : Particle → Particle) (l : List Particle) (i : Nat)
    (hfix : f (l.getD i defaultParticle) = l.getD i defaultParticle) :
    (l.map f).getD i defaultParticle = l.getD i defaultParticle := by
  rcases lt_or_le i l.length with h | h
  · rw [getD_map f l i defaultParticle h, hfix]
  · rw [getD_oob _ _ _ h, getD_oob _ _ _ (by simpa using h)]

/-! ### Pinned particles are fixed points of every per-particle pass -/

theorem apply_forces_p_pinned (g wd : Vec3) (p : Particle) (hp : p.is_pinned > 1/2) :
    apply_forces_p g wd p = p := by
  unfold apply_forces_p
  rw [if_pos hp]

theorem verlet_p_pinned (gd dt : ℚ) (p : Particle) (hp : p.is_pinned > 1/2) :
    verlet_p gd dt p = p := by
  unfold verlet_p
  rw [if_pos hp]

theorem tc_verlet_p_pinned (gd dt : ℚ) (p : Particle) (hp : p.is_pinned > 1/2) :
    tc_verlet_p gd dt p = p := by
  unfold tc_verlet_p
  rw [if_pos hp]

theorem explicit_euler_p_pinned (gd dt : ℚ) (p : Particle) (hp : p.is_pinned > 1/2) :
    explicit_euler_p gd dt p = p := by
  unfold explicit_euler_p
  rw [if_pos hp]

theorem symplectic_euler_p_pinned (gd dt : ℚ) (p : Particle) (hp : p.is_pinned > 1/2) :
    symplectic_euler_p gd dt p = p := by
  unfold symplectic_euler_p
  rw [if_pos hp]

theorem implicit_euler_p_pinned (dt : ℚ) (p : Particle) (hp : p.is_pinned > 1/2) :
    implicit_euler_p dt p = p := by
  unfold implicit_euler_p
  rw [if_pos hp]

theorem vv_pass1_p_pinned (dt : ℚ) (p : Particle) (hp : p.is_pinned > 1/2) :
    vv_pass1_p dt p = p := by
  unfold vv_pass1_p
  rw [if_pos hp]

theorem vv_pass2_p_pinned (gd dt : ℚ) (p : Particle) (hp : p.is_pinned > 1/2) :
    vv_pass2_p gd dt p = p := by
  unfold vv_pass2_p
  rw [if_pos hp]

/-- The ground clamp fixes any particle that does not violate the plane. -/
theorem solve_constraints_p_fix (p : Particle) (hy : p.pos.y ≤ 900) :
    solve_constraints_p p = p := by
  unfold solve_constraints_p
  rw [if_neg (by linarith)]

/-! ### The spring pass writes only acceleration fields, and never writes
a pinned particle at all -/

/-- Everything of a particle except its accumulated acceleration. -/
def sansAcc (p : Particle) : Vec3 × Vec3 × Vec3 × ℚ × ℚ × ℚ :=
  (p.pos, p.old_pos, p.vel, p.mass, p.is_pinned, p.prev_dt)

theorem sansAcc_set (ps : List Particle) (a : Nat) (q : Particle) (i : Nat)
    (hq : sansAcc q = sansAcc (ps.getD a defaultParticle)) :
    sansAcc ((ps.set a q).getD i defaultParticle) = sansAcc (ps.getD i defaultParticle) := by
  by_cases hia : i = a
  · subst hia
    rcases lt_or_le i ps.length with h | h
    · rw [getD_set_self _ _ _ _ h, hq]
    · rw [List.set_eq_of_length_le h]
  · rw [getD_set_ne _ _ _ _ _ hia]

theorem springStep_sansAcc (sq : ℚ → ℚ) (ps : List Particle) (s : Spring) (i : Nat) :
    sansAcc ((springStep sq ps s).getD i defaultParticle) =
      sansAcc (ps.getD i defaultParticle) := by
  unfold springStep
  dsimp only
  split
  · rfl
  · split
    · split
      · exact (sansAcc_set _ _ _ _ (by simp [sansAcc, sansAcc_set, sansAcc_set _ _ _ _ rfl]
        )).trans (sansAcc_set _ _ _ _ (by simp [sansAcc]))
      · exact sansAcc_set _ _ _ _ (by simp [sansAcc])
    · split
      · exact sansAcc_set _ _ _ _ (by simp [sansAcc])
      · rfl

theorem springStep_length (sq : ℚ → ℚ) (ps : List Particle) (s : Spring) :
    (springStep sq ps s).length = ps.length := by
  unfold springStep
  dsimp only
  split
  · rfl
  · split <;> split <;> simp

theorem springs_foldl_sansAcc (sq : ℚ → ℚ) (ss : List Spring) (ps : List Particle) (i : Nat) :
    sansAcc ((ss.foldl (springStep sq) ps).getD i defaultParticle) =
      sansAcc (ps.getD i defaultParticle) := by
  induction ss generalizing ps with
  | nil => rfl
  | cons s rest ih => rw [List.foldl_cons, ih, springStep_sansAcc]

theorem springs_foldl_length (sq : ℚ → ℚ) (ss : List Spring) (ps : List Particle) :
    (ss.foldl (springStep sq) ps).length = ps.length := by
  induction ss generalizing ps with
  | nil => rfl
  | cons s rest ih => rw [List.foldl_cons, ih, springStep_length]

theorem springStep_pinned_getD (sq : ℚ → ℚ) (ps : List Particle) (s : Spring) (i : Nat)
    (hpin : (ps.getD i defaultParticle).is_pinned > 1/2) :
    (springStep sq ps s).getD i defaultParticle = ps.getD i defaultParticle := by
  unfold springStep
  dsimp only
  split
  · rfl
  · have h1 : ∀ (l : List Particle) (a : Nat) (q : Particle),
        l.getD i defaultParticle = ps.getD i defaultParticle →
        ((l.getD a defaultParticle).is_pinned < 1/2) →
        (l.set a q).getD i defaultParticle = ps.getD i defaultParticle := by
      intro l a q hl ha
      by_cases hia : i = a
      · subst hia
        rw [hl] at ha
        linarith
      · rw [getD_set_ne _ _ _ _ _ hia, hl]
    split
    · split
      · exact h1 _ _ _ (h1 _ _ _ rfl (by assumption)) (by assumption)
      · exact h1 _ _ _ rfl (by assumption)
    · split
      · exact h1 _ _ _ rfl (by assumption)
      · rfl

theorem springs_foldl_pinned_getD (sq : ℚ → ℚ) (ss : List Spring) (ps : List Particle)
    (i : Nat) (hpin : (ps.getD i defaultParticle).is_pinned > 1/2) :
    (ss.foldl (springStep sq) ps).getD i defaultParticle = ps.getD i defaultParticle := by
  induction ss generalizing ps with
  | nil => rfl
  | cons s rest ih =>
      rw [List.foldl_cons, ih _ (by rw [springStep_pinned_getD sq ps s i hpin]; exact hpin),
        springStep_pinned_getD sq ps s i hpin]

/-! ### The RK loops never write a pinned particle -/

theorem rk2_step_pinned_getD (sq : ℚ → ℚ) (w : PhysicsWorld) (dt : ℚ)
    (ps : List Particle) (a i : Nat)
    (hpin : (ps.getD i defaultParticle).is_pinned > 1/2) :
    (rk2_step sq w dt ps a).getD i defaultParticle = ps.getD i defaultParticle := by
  unfold rk2_step
  dsimp only
  split
  · rfl
  · by_cases hia : i = a
    · subst hia
      exact absurd hpin (by assumption)
    · rw [getD_set_ne _ _ _ _ _ hia]

theorem rk4_step_pinned_getD (sq : ℚ → ℚ) (w : PhysicsWorld) (dt : ℚ)
    (ps : List Particle) (a i : Nat)
    (hpin : (ps.getD i defaultParticle).is_pinned > 1/2) :
    (rk4_step sq w dt ps a).getD i defaultParticle = ps.getD i defaultParticle := by
  unfold rk4_step
  dsimp only
  split
  · rfl
  · by_cases hia : i = a
    · subst hia
      exact absurd hpin (by assumption)
    · rw [getD_set_ne _ _ _ _ _ hia]

theorem rk2_foldl_pinned_getD (sq : ℚ → ℚ) (w : PhysicsWorld) (dt : ℚ)
    (idxs : List Nat) (ps : List Particle) (i : Nat)
    (hpin : (ps.getD i defaultParticle).is_pinned > 1/2) :
    (idxs.foldl (rk2_step sq w dt) ps).getD i defaultParticle = ps.getD i defaultParticle := by
  induction idxs generalizing ps with
  | nil => rfl
  | cons a rest ih =>
      rw [List.foldl_cons, ih _ (by rw [rk2_step_pinned_getD sq w dt ps a i hpin]; exact hpin),
        rk2_step_pinned_getD sq w dt ps a i hpin]

theorem rk4_foldl_pinned_getD (sq : ℚ → ℚ) (w : PhysicsWorld) (dt : ℚ)
    (idxs : List Nat) (ps : List Particle) (i : Nat)
    (hpin : (ps.getD i defaultParticle).is_pinned > 1/2) :
    (idxs.foldl (rk4_step sq w dt) ps).getD i defaultParticle = ps.getD i defaultParticle := by
  induction idxs generalizing ps with
  | nil => rfl
  | cons a rest ih =>
      rw [List.foldl_cons, ih _ (by rw [rk4_step_pinned_getD sq w dt ps a i hpin]; exact hpin),
        rk4_step_pinned_getD sq w dt ps a i hpin]

/-! ### World-level stage lemmas: a pinned particle that does not violate
the ground plane is untouched by every stage of a sub-step -/

theorem apply_forces_pin (w : PhysicsWorld) (i : Nat)
    (hpin : (w.particles.getD i defaultParticle).is_pinned > 1/2) :
    (apply_forces w).particles.getD i defaultParticle = w.particles.getD i defaultParticle := by
  simp only [apply_forces]
  exact getD_map_fix _ _ _ (apply_forces_p_pinned _ _ _ hpin)

theorem solve_springs_pin (sq : ℚ → ℚ) (w : PhysicsWorld) (dt : ℚ) (i : Nat)
    (hpin : (w.particles.getD i defaultParticle).is_pinned > 1/2) :
    (solve_springs sq w dt).particles.getD i defaultParticle =
      w.particles.getD i defaultParticle := by
  simp only [solve_springs]
  exact springs_foldl_pinned_getD _ _ _ _ hpin

theorem solve_constraints_fix_getD (w : PhysicsWorld) (i : Nat)
    (hy : (w.particles.getD i defaultParticle).pos.y ≤ 900) :
    (solve_constraints w).particles.getD i defaultParticle =
      w.particles.getD i defaultParticle := by
  simp only [solve_constraints]
  exact getD_map_fix _ _ _ (solve_constraints_p_fix _ hy)

theorem integrate_verlet_pin (w : PhysicsWorld) (dt : ℚ) (i : Nat)
    (hpin : (w.particles.getD i defaultParticle).is_pinned > 1/2) :
    (integrate_verlet w dt).particles.getD i defaultParticle =
      w.particles.getD i defaultParticle := by
  simp only [integrate_verlet]
  exact getD_map_fix _ _ _ (verlet_p_pinned _ _ _ hpin)

theorem integrate_tc_verlet_pin (w : PhysicsWorld) (dt : ℚ) (i : Nat)
    (hpin : (w.particles.getD i defaultParticle).is_pinned > 1/2) :
    (integrate_tc_verlet w dt).particles.getD i defaultParticle =
      w.particles.getD i defaultParticle := by
  simp only [integrate_tc_verlet]
  exact getD_map_fix _ _ _ (tc_verlet_p_pinned _ _ _ hpin)

theorem integrate_explicit_euler_pin (w : PhysicsWorld) (dt : ℚ) (i : Nat)
    (hpin : (w.particles.getD i defaultParticle).is_pinned > 1/2) :
    (integrate_explicit_euler w dt).particles.getD i defaultParticle =
      w.particles.getD i defaultParticle := by
  simp only [integrate_explicit_euler]
  exact getD_map_fix _ _ _ (explicit_euler_p_pinned _ _ _ hpin)

theorem integrate_symplectic_euler_pin (w : PhysicsWorld) (dt : ℚ) (i : Nat)
    (hpin : (w.particles.getD i defaultParticle).is_pinned > 1/2) :
    (integrate_symplectic_euler w dt).particles.getD i defaultParticle =
      w.particles.getD i defaultParticle := by
  simp only [integrate_symplectic_euler]
  exact getD_map_fix _ _ _ (symplectic_euler_p_pinned _ _ _ hpin)

theorem integrate_vv1_pin (w : PhysicsWorld) (dt : ℚ) (i : Nat)
    (hpin : (w.particles.getD i defaultParticle).is_pinned > 1/2) :
    (integrate_velocity_verlet_pass1 w dt).particles.getD i defaultParticle =
      w.particles.getD i defaultParticle := by
  simp only [integrate_velocity_verlet_pass1]
  exact getD_map_fix _ _ _ (vv_pass1_p_pinned _ _ hpin)

theorem integrate_vv2_pin (w : PhysicsWorld) (dt : ℚ) (i : Nat)
    (hpin : (w.particles.getD i defaultParticle).is_pinned > 1/2) :
    (integrate_velocity_verlet_pass2 w dt).particles.getD i defaultParticle =
      w.particles.getD i defaultParticle := by
  simp only [integrate_velocity_verlet_pass2]
  exact getD_map_fix _ _ _ (vv_pass2_p_pinned _ _ _ hpin)

theorem integrate_rk2_pin (sq : ℚ → ℚ) (w : PhysicsWorld) (dt : ℚ) (i : Nat)
    (hpin : (w.particles.getD i defaultParticle).is_pinned > 1/2) :
    (integrate_rk2 sq w dt).particles.getD i defaultParticle =
      w.particles.getD i defaultParticle := by
  simp only [integrate_rk2]
  exact rk2_foldl_pinned_getD _ _ _ _ _ _ hpin

theorem integrate_rk4_pin (sq : ℚ → ℚ) (w : PhysicsWorld) (dt : ℚ) (i : Nat)
    (hpin : (w.particles.getD i defaultParticle).is_pinned > 1/2) :
    (integrate_rk4 sq w dt).particles.getD i defaultParticle =
      w.particles.getD i defaultParticle := by
  simp only [integrate_rk4]
  exact rk4_foldl_pinned_getD _ _ _ _ _ _ hpin

/-- A pinned particle not violating the ground plane is bit-for-bit
untouched by one sub-step, whatever the active solver. -/
theorem subStep_pinned_getD (sq : ℚ → ℚ) (sd : ℚ) (w : PhysicsWorld) (i : Nat)
    (hpin : (w.particles.getD i defaultParticle).is_pinned > 1/2)
    (hy : (w.particles.getD i defaultParticle).pos.y ≤ 900) :
    (subStep sq sd w).particles.getD i defaultParticle =
      w.particles.getD i defaultParticle := by
  cases hcs : w.current_solver
  case velocityVerlet =>
    simp only [subStep, hcs]
    have e1 := integrate_vv1_pin w sd i hpin
    have e2 := solve_constraints_fix_getD (integrate_velocity_verlet_pass1 w sd) i
      (by rw [e1]; exact hy)
    have e3 := apply_forces_pin (solve_constraints (integrate_velocity_verlet_pass1 w sd)) i
      (by rw [e2, e1]; exact hpin)
    have e4 := solve_springs_pin sq
      (apply_forces (solve_constraints (integrate_velocity_verlet_pass1 w sd))) sd i
      (by rw [e3, e2, e1]; exact hpin)
    have e5 := integrate_vv2_pin
      (solve_springs sq (apply_forces (solve_constraints (integrate_velocity_verlet_pass1 w sd))) sd)
      sd i (by rw [e4, e3, e2, e1]; exact hpin)
    rw [e5, e4, e3, e2, e1]
  all_goals
    simp only [subStep, hcs]
    have e1 := apply_forces_pin w i hpin
    have e2 := solve_springs_pin sq (apply_forces w) sd i (by rw [e1]; exact hpin)
  case explicitEuler =>
    have e3 := integrate_explicit_euler_pin (solve_springs sq (apply_forces w) sd) sd i
      (by rw [e2, e1]; exact hpin)
    have e4 := solve_constraints_fix_getD
      (integrate_explicit_euler (solve_springs sq (apply_forces w) sd) sd) i
      (by rw [e3, e2, e1]; exact hy)
    simp only [show (SolverType.explicitEuler = SolverType.rk2 ∨
      SolverType.explicitEuler = SolverType.rk4) = False by simp, if_false]
    rw [e4, e3, e2, e1]
  case symplecticEuler =>
    have e3 := integrate_symplectic_euler_pin (solve_springs sq (apply_forces w) sd) sd i
      (by rw [e2, e1]; exact hpin)
    have e4 := solve_constraints_fix_getD
      (integrate_symplectic_euler (solve_springs sq (apply_forces w) sd) sd) i
      (by rw [e3, e2, e1]; exact hy)
    simp only [show (SolverType.symplecticEuler = SolverType.rk2 ∨
      SolverType.symplecticEuler = SolverType.rk4) = False by simp, if_false]
    rw [e4, e3, e2, e1]
  case verlet =>
    have e3 := integrate_verlet_pin (solve_springs sq (apply_forces w) sd) sd i
      (by rw [e2, e1]; exact hpin)
    have e4 := solve_constraints_fix_getD
      (integrate_verlet (solve_springs sq (apply_forces w) sd) sd) i
      (by rw [e3, e2, e1]; exact hy)
    simp only [show (SolverType.verlet = SolverType.rk2 ∨
      SolverType.verlet = SolverType.rk4) = False by simp, if_false]
    rw [e4, e3, e2, e1]
  case tcVerlet =>
    have e3 := integrate_tc_verlet_pin (solve_springs sq (apply_forces w) sd) sd i
      (by rw [e2, e1]; exact hpin)
    have e4 := solve_constraints_fix_getD
      (integrate_tc_verlet (solve_springs sq (apply_forces w) sd) sd) i
      (by rw [e3, e2, e1]; exact hy)
    simp only [show (SolverType.tcVerlet = SolverType.rk2 ∨
      SolverType.tcVerlet = SolverType.rk4) = False by simp, if_false]
    rw [e4, e3, e2, e1]
  case implicitEuler =>
    have e3 := integrate_symplectic_euler_pin (solve_springs sq (apply_forces w) sd) sd i
      (by rw [e2, e1]; exact hpin)
    have e4 := solve_constraints_fix_getD
      (integrate_symplectic_euler (solve_springs sq (apply_forces w) sd) sd) i
      (by rw [e3, e2, e1]; exact hy)
    simp only [show (SolverType.implicitEuler = SolverType.rk2 ∨
      SolverType.implicitEuler = SolverType.rk4) = False by simp, if_false]
    rw [e4, e3, e2, e1]
  case rk2 =>
    have e3 := integrate_rk2_pin sq (solve_springs sq (apply_forces w) sd) sd i
      (by rw [e2, e1]; exact hpin)
    rw [if_pos (Or.inl trivial), e3, e2, e1]
  case rk4 =>
    have e3 := integrate_rk4_pin sq (solve_springs sq (apply_forces w) sd) sd i
      (by rw [e2, e1]; exact hpin)
    rw [if_pos (Or.inr trivial), e3, e2, e1]

theorem iterate_subStep_pinned (sq : ℚ → ℚ) (sd : ℚ) (n : Nat) (w : PhysicsWorld) (i : Nat)
    (hpin : (w.particles.getD i defaultParticle).is_pinned > 1/2)
    (hy : (w.particles.getD i defaultParticle).pos.y ≤ 900) :
    (Nat.iterate (subStep sq sd) n w).particles.getD i defaultParticle =
      w.particles.getD i defaultParticle := by
  induction n generalizing w with
  | zero => rfl
  | succ n ih =>
      have hstep := subStep_pinned_getD sq sd w i hpin hy
      have : Nat.iterate (subStep sq sd) (n+1) w =
          Nat.iterate (subStep sq sd) n (subStep sq sd w) := rfl
      rw [this, ih (subStep sq sd w) (by rw [hstep]; exact hpin) (by rw [hstep]; exact hy),
        hstep]

theorem step_pinned_getD (sq : ℚ → ℚ) (w : PhysicsWorld) (dt : ℚ) (i : Nat)
    (hpin : (w.particles.getD i defaultParticle).is_pinned > 1/2)
    (hy : (w.particles.getD i defaultParticle).pos.y ≤ 900) :
    (step sq w dt).particles.getD i defaultParticle =
      w.particles.getD i defaultParticle := by
  unfold step
  exact iterate_subStep_pinned sq _ _ w i hpin hy

theorem steps_pinned_getD (sq : ℚ → ℚ) (dts : List ℚ) (w : PhysicsWorld) (i : Nat)
    (hpin : (w.particles.getD i defaultParticle).is_pinned > 1/2)
    (hy : (w.particles.getD i defaultParticle).pos.y ≤ 900) :
    ((dts.foldl (step sq) w).particles.getD i defaultParticle) =
      w.particles.getD i defaultParticle := by
  induction dts generalizing w with
  | nil => rfl
  | cons dt rest ih =>
      have hstep := step_pinned_getD sq w dt i hpin hy
      rw [List.foldl_cons, ih (step sq w dt) (by rw [hstep]; exact hpin)
        (by rw [hstep]; exact hy), hstep]

/-! ### Concrete inputs used by witnesses and counterexamples -/

/-- A trivial model of the float square root; none of the proved control
properties depends on its values. -/
def sqZero : ℚ → ℚ := fun _ => 0

/-- A world holding one pinned particle placed beyond the ground plane. -/
def wPinnedHigh : PhysicsWorld :=
  { PhysicsWorld.init with
    sub_steps := 1,
    particles := [{ pos := ⟨0, 1000, 0⟩, old_pos := ⟨0, 1000, 0⟩, acc := ⟨0, 0, 0⟩,
                    vel := ⟨0, 0, 0⟩, mass := 1, is_pinned := 1, prev_dt := 1/60 }] }

/-- A world holding one pinned particle below the ground plane. -/
def wPinnedLow : PhysicsWorld :=
  { PhysicsWorld.init with
    sub_steps := 2,
    particles := [{ pos := ⟨3, 5, 7⟩, old_pos := ⟨3, 5, 7⟩, acc := ⟨0, 0, 0⟩,
                    vel := ⟨0, 0, 0⟩, mass := 1, is_pinned := 1, prev_dt := 1/60 }] }

/-- C2, counterexample: the claim "for every integrator choice and every
particle whose pinned flag is set, the particle's position is bit-for-bit
unchanged by any number of `step()` calls" is false as stated: the ground
clamp in `solve_constraints` has no pin-flag check, so a pinned particle
at `y = 1000` is moved to `y = 900` by a single `step`. -/
theorem C2_counterexample :
    ((step sqZero wPinnedHigh (1/20)).particles.getD 0 defaultParticle).pos ≠
      (wPinnedHigh.particles.getD 0 defaultParticle).pos := by
  norm_num [step, subStep, wPinnedHigh, PhysicsWorld.init, apply_forces, apply_forces_p,
    solve_springs, integrate_verlet, verlet_p, solve_constraints, solve_constraints_p,
    defaultParticle, Nat.iterate, sqZero, Vec3.smul, Vec3.add_def, Vec3.sub_def, min_def]
  simp

/-- C2 (amended): for every integrator choice, a pinned particle whose
position does not violate the ground plane (`pos.y ≤ 900`) has its
position (indeed its whole record) unchanged by any number of `step()`
calls, unless explicitly repositioned via a point mutator. -/
theorem C2_pinned_position_invariant (sq : ℚ → ℚ) (dts : List ℚ) (w : PhysicsWorld) (i : Nat)
    (hpin : (w.particles.getD i defaultParticle).is_pinned > 1/2)
    (hy : (w.particles.getD i defaultParticle).pos.y ≤ 900) :
    ((dts.foldl (step sq) w).particles.getD i defaultParticle).pos =
      (w.particles.getD i defaultParticle).pos := by
  rw [steps_pinned_getD sq dts w i hpin hy]

/-- C2, witness: the amended invariant applied at a concrete world and a
concrete pair of `step` calls. -/
theorem C2_witness :
    (([(1/30 : ℚ), 1/60].foldl (step sqZero) wPinnedLow).particles.getD 0
        defaultParticle).pos = (wPinnedLow.particles.getD 0 defaultParticle).pos :=
  C2_pinned_position_invariant sqZero [1/30, 1/60] wPinnedLow 0
    (by norm_num [wPinnedLow, PhysicsWorld.init, defaultParticle])
    (by norm_num [wPinnedLow, PhysicsWorld.init, defaultParticle])

/-- C5: after the constraint pass (`solve_constraints`, which C4 shows
runs at the end of every sub-step of a non-RK solver and between the two
Velocity-Verlet half passes, after which positions are no longer
written), every particle whose position's vertical coordinate exceeded
the fixed ground value `900` has both `pos.y` and `old_pos.y` equal to
`900`. -/
theorem C5_ground_clamp (w : PhysicsWorld) (i : Nat)
    (hy : (w.particles.getD i defaultParticle).pos.y > 900) :
    ((solve_constraints w).particles.getD i defaultParticle).pos.y = 900 ∧
      ((solve_constraints w).particles.getD i defaultParticle).old_pos.y = 900 := by
  have hi : i < w.particles.length := by
    by_contra h
    rw [getD_oob _ _ _ (le_of_not_lt h)] at hy
    norm_num [defaultParticle] at hy
  have hrw : (solve_constraints w).particles.getD i defaultParticle =
      solve_constraints_p (w.particles.getD i defaultParticle) := by
    simp only [solve_constraints]
    exact getD_map _ _ _ _ hi
  rw [hrw]
  unfold solve_constraints_p
  rw [if_pos hy]
  exact ⟨rfl, rfl⟩

/-- C5, witness: the clamp applied to a concrete particle at `y = 1000`. -/
theorem C5_witness :
    ((solve_constraints wPinnedHigh).particles.getD 0 defaultParticle).pos.y = 900 ∧
      ((solve_constraints wPinnedHigh).particles.getD 0 defaultParticle).old_pos.y = 900 :=
  C5_ground_clamp wPinnedHigh 0
    (by norm_num [wPinnedHigh, PhysicsWorld.init, defaultParticle])

/-- C8: for every out-of-range particle index (negative or at least the
particle count), `set_pinned`, `set_particle_pos` and `is_pinned` leave
the world unchanged and `is_pinned` returns `false`.  `i` ranges over the
32-bit `int` values and the store is assumed to fit a wasm32 address
space (`length ≤ 2^31`), which makes the source's signed/unsigned
comparison `i < particles.size()` reject negative `i`. -/
theorem C8_out_of_range_ignored (w : PhysicsWorld) (i : Int) (b : Bool) (x y z : ℚ)
    (hlo : -(2^31) ≤ i) (hhi : i < 2^31)
    (hlen : (w.particles.length : Int) ≤ 2^31)
    (hout : i < 0 ∨ (w.particles.length : Int) ≤ i) :
    set_pinned w i b = w ∧ set_particle_pos w i x y z = w ∧ is_pinned w i = false := by
  refine ⟨?_, ?_, ?_⟩
  · unfold set_pinned
    rw [if_neg (by simp only [u32of]; omega)]
  · unfold set_particle_pos
    rw [if_neg (by simp only [u32of]; omega)]
  · unfold is_pinned
    rw [if_neg (by simp only [u32of]; omega)]

/-- C8, witness: a concrete out-of-range index on a one-particle world. -/
theorem C8_witness :
    set_pinned wPinnedLow 5 true = wPinnedLow ∧
      set_particle_pos wPinnedLow 5 1 2 3 = wPinnedLow ∧
      is_pinned wPinnedLow 5 = false :=
  C8_out_of_range_ignored wPinnedLow 5 true 1 2 3 (by norm_num) (by norm_num)
    (by norm_num [wPinnedLow, PhysicsWorld.init])
    (Or.inr (by norm_num [wPinnedLow, PhysicsWorld.init]))

/-- C9: a spring whose endpoint separation length is below the `0.0001`
epsilon is skipped entirely by the spring-force pass (`springStep`, the
per-spring body of `solve_springs`), and likewise by the stage-local
evaluator's loop body (`accumSpringForce` inside `get_acceleration`), so
the `1/len` unit-direction division is never formed from a length below
that epsilon. -/
theorem C9_degenerate_spring_skipped (sq : ℚ → ℚ) (ps : List Particle) (s : Spring)
    (w : PhysicsWorld) (p_idx : Nat) (pos vel tf : Vec3) (s_idx : Nat)
    (s' : Spring) (oi : Int)
    (hlen : Vec3.length sq ((ps.getD s.p1.toNat defaultParticle).pos -
      (ps.getD s.p2.toNat defaultParticle).pos) < 1/10000)
    (hs' : s' = w.springs.getD s_idx defaultSpring)
    (hoi : oi = if s'.p1 = (p_idx : Int) then s'.p2 else s'.p1)
    (hdist : Vec3.length sq (pos - (ps.getD oi.toNat defaultParticle).pos) < 1/10000) :
    springStep sq ps s = ps ∧ accumSpringForce sq w ps p_idx pos vel tf s_idx = tf := by
  constructor
  · unfold springStep
    dsimp only
    rw [if_pos hlen]
  · unfold accumSpringForce
    dsimp only
    rw [if_pos (by rw [hoi, hs'] at hdist; exact hdist)]

/-- C9, witness: coincident endpoints with the zero model of sqrt. -/
theorem C9_witness :
    springStep sqZero [] defaultSpring = [] ∧
      accumSpringForce sqZero PhysicsWorld.init [] 0 ⟨1, 2, 3⟩ ⟨0, 0, 0⟩ ⟨4, 5, 6⟩ 0 =
        ⟨4, 5, 6⟩ :=
  C9_degenerate_spring_skipped sqZero [] defaultSpring PhysicsWorld.init 0 ⟨1, 2, 3⟩
    ⟨0, 0, 0⟩ ⟨4, 5, 6⟩ 0 defaultSpring 0
    (by norm_num [Vec3.length, sqZero])
    (by norm_num [PhysicsWorld.init, defaultSpring])
    (by norm_num [defaultSpring])
    (by norm_num [Vec3.length, sqZero])

/-- C10: for a valid index, `set_particle_pos` writes `pos` and
`old_pos` to the given value (cancelling the position-derived Verlet
velocity, since `pos - old_pos` becomes zero) and leaves the explicit
`vel` field, `mass`, pinned flag, accumulated acceleration and `prev_dt`
unchanged, leaves every other particle unchanged, and leaves the spring
set unchanged — so a velocity-based integrator still reads the pre-write
explicit velocity on the next step. -/
theorem C10_set_particle_pos_fields (w : PhysicsWorld) (i : Int) (x y z : ℚ) (j : Nat)
    (h0 : 0 ≤ i) (hi : i < (w.particles.length : Int))
    (hlen : (w.particles.length : Int) ≤ 2^31)
    (hj : j ≠ i.toNat) :
    ((set_particle_pos w i x y z).particles.getD i.toNat defaultParticle).pos = ⟨x, y, z⟩ ∧
    ((set_particle_pos w i x y z).particles.getD i.toNat defaultParticle).old_pos = ⟨x, y, z⟩ ∧
    ((set_particle_pos w i x y z).particles.getD i.toNat defaultParticle).vel =
      (w.particles.getD i.toNat defaultParticle).vel ∧
    ((set_particle_pos w i x y z).particles.getD i.toNat defaultParticle).mass =
      (w.particles.getD i.toNat defaultParticle).mass ∧
    ((set_particle_pos w i x y z).particles.getD i.toNat defaultParticle).is_pinned =
      (w.particles.getD i.toNat defaultParticle).is_pinned ∧
    ((set_particle_pos w i x y z).particles.getD i.toNat defaultParticle).acc =
      (w.particles.getD i.toNat defaultParticle).acc ∧
    ((set_particle_pos w i x y z).particles.getD i.toNat defaultParticle).prev_dt =
      (w.particles.getD i.toNat defaultParticle).prev_dt ∧
    (set_particle_pos w i x y z).particles.getD j defaultParticle =
      w.particles.getD j defaultParticle ∧
    (set_particle_pos w i x y z).springs = w.springs := by
  have hnat : i.toNat < w.particles.length := by omega
  unfold set_particle_pos
  rw [if_pos (by simp only [u32of]; omega)]
  dsimp only
  rw [getD_set_self _ _ _ _ hnat, getD_set_ne _ _ _ _ _ hj]
  exact ⟨rfl, rfl, rfl, rfl, rfl, rfl, rfl, rfl, rfl⟩

/-- C10, witness: writing particle 0 of a one-particle world. -/
theorem C10_witness :
    ((set_particle_pos wPinnedLow 0 9 8 7).particles.getD (0 : Int).toNat
        defaultParticle).pos = ⟨9, 8, 7⟩ ∧
    ((set_particle_pos wPinnedLow 0 9 8 7).particles.getD (0 : Int).toNat
        defaultParticle).old_pos = ⟨9, 8, 7⟩ ∧
    ((set_particle_pos wPinnedLow 0 9 8 7).particles.getD (0 : Int).toNat
        defaultParticle).vel = (wPinnedLow.particles.getD (0 : Int).toNat defaultParticle).vel ∧
    ((set_particle_pos wPinnedLow 0 9 8 7).particles.getD (0 : Int).toNat
        defaultParticle).mass = (wPinnedLow.particles.getD (0 : Int).toNat defaultParticle).mass ∧
    ((set_particle_pos wPinnedLow 0 9 8 7).particles.getD (0 : Int).toNat
        defaultParticle).is_pinned =
      (wPinnedLow.particles.getD (0 : Int).toNat defaultParticle).is_pinned ∧
    ((set_particle_pos wPinnedLow 0 9 8 7).particles.getD (0 : Int).toNat
        defaultParticle).acc = (wPinnedLow.particles.getD (0 : Int).toNat defaultParticle).acc ∧
    ((set_particle_pos wPinnedLow 0 9 8 7).particles.getD (0 : Int).toNat
        defaultParticle).prev_dt =
      (wPinnedLow.particles.getD (0 : Int).toNat defaultParticle).prev_dt ∧
    (set_particle_pos wPinnedLow 0 9 8 7).particles.getD 3 defaultParticle =
      wPinnedLow.particles.getD 3 defaultParticle ∧
    (set_particle_pos wPinnedLow 0 9 8 7).springs = wPinnedLow.springs :=
  C10_set_particle_pos_fields wPinnedLow 0 9 8 7 3 (by norm_num)
    (by norm_num [wPinnedLow, PhysicsWorld.init])
    (by norm_num [wPinnedLow, PhysicsWorld.init])
    (by norm_num)

/-- C7: under zero accumulated acceleration, damping factor 1 and
`old_pos = pos - v·dt` (with `prev_dt = dt` for the time-corrected
variant), one call of `integrate_verlet` or `integrate_tc_verlet` on a
single non-pinned particle advances its position by exactly `v·dt`. -/
theorem C7_verlet_constant_velocity (w : PhysicsWorld) (p : Particle) (v : Vec3) (dt : ℚ)
    (hps : w.particles = [p])
    (hgd : w.global_damping = 1)
    (hacc : p.acc = ⟨0, 0, 0⟩)
    (hpin : ¬ p.is_pinned > 1/2)
    (hold : p.old_pos = p.pos - v.smul dt)
    (hprev : p.prev_dt = dt)
    (hdt : 0 < dt) :
    ((integrate_verlet w dt).particles.getD 0 defaultParticle).pos = p.pos + v.smul dt ∧
      ((integrate_tc_verlet w dt).particles.getD 0 defaultParticle).pos =
        p.pos + v.smul dt := by
  have hne : dt ≠ 0 := ne_of_gt hdt
  constructor
  · simp only [integrate_verlet, hps, List.map_cons, List.map_nil, List.getD_cons_zero]
    unfold verlet_p
    rw [if_neg hpin]
    dsimp only
    rw [hgd, hacc, hold]
    simp only [Vec3.add_def, Vec3.sub_def, Vec3.smul, Vec3.mk.injEq]
    refine ⟨by ring, by ring, by ring⟩
  · simp only [integrate_tc_verlet, hps, List.map_cons, List.map_nil, List.getD_cons_zero]
    unfold tc_verlet_p
    rw [if_neg hpin]
    dsimp only
    rw [hgd, hacc, hold, hprev, ite_self]
    simp only [Vec3.add_def, Vec3.sub_def, Vec3.smul, Vec3.mk.injEq]
    refine ⟨by field_simp, by field_simp, by field_simp⟩

/-- A particle moving in `x` at speed 5 with consistent Verlet history. -/
def pConstVel : Particle :=
  { pos := ⟨2, 3, 4⟩, old_pos := ⟨2 - 5 * (1/30), 3, 4⟩, acc := ⟨0, 0, 0⟩,
    vel := ⟨5, 0, 0⟩, mass := 1, is_pinned := 0, prev_dt := 1/30 }

/-- A single-particle world with damping 1 for the Verlet drift test. -/
def wConstVel : PhysicsWorld :=
  { PhysicsWorld.init with particles := [pConstVel], global_damping := 1 }

/-- C7, witness: the constant-velocity property at a concrete particle,
velocity `(5,0,0)` and `dt = 1/30`. -/
theorem C7_witness :
    ((integrate_verlet wConstVel (1/30)).particles.getD 0 defaultParticle).pos =
        pConstVel.pos + (⟨5, 0, 0⟩ : Vec3).smul (1/30) ∧
      ((integrate_tc_verlet wConstVel (1/30)).particles.getD 0 defaultParticle).pos =
        pConstVel.pos + (⟨5, 0, 0⟩ : Vec3).smul (1/30) :=
  C7_verlet_constant_velocity wConstVel pConstVel ⟨5, 0, 0⟩ (1/30)
    (by norm_num [wConstVel, PhysicsWorld.init])
    (by norm_num [wConstVel, PhysicsWorld.init])
    (by norm_num [pConstVel])
    (by norm_num [pConstVel])
    (by norm_num [pConstVel, Vec3.smul, Vec3.sub_def])
    (by norm_num [pConstVel])
    (by norm_num)

/-! ### Configuration fields survive stepping (needed for C3) -/

theorem subStep_sim_dt (sq : ℚ → ℚ) (sd : ℚ) (v : PhysicsWorld) :
    (subStep sq sd v).sim_dt = v.sim_dt := by
  cases hcs : v.current_solver <;>
    · simp only [subStep, hcs]
      rfl

theorem iterate_subStep_sim_dt (sq : ℚ → ℚ) (sd : ℚ) (n : Nat) (v : PhysicsWorld) :
    (Nat.iterate (subStep sq sd) n v).sim_dt = v.sim_dt := by
  induction n generalizing v with
  | zero => rfl
  | succ n ih =>
      have h1 : Nat.iterate (subStep sq sd) (n+1) v =
          Nat.iterate (subStep sq sd) n (subStep sq sd v) := rfl
      rw [h1, ih, subStep_sim_dt]

theorem step_sim_dt (sq : ℚ → ℚ) (w : PhysicsWorld) (dt : ℚ) :
    (step sq w dt).sim_dt = w.sim_dt := by
  unfold step
  exact iterate_subStep_sim_dt sq _ _ w

/-- For the C cast in `update`, clamping below by one erases the
difference between truncation toward zero and the floor. -/
theorem max_one_truncInt (q : ℚ) : max 1 (truncInt q) = max 1 (Int.floor q) := by
  unfold truncInt
  rcases le_or_lt 0 q with h | h
  · rw [if_pos h]
  · rw [if_neg (not_le.2 h)]
    have h1 : Int.ceil q ≤ 0 := Int.ceil_le.2 (by exact_mod_cast le_of_lt h)
    have h2 : Int.floor q ≤ 0 := Int.floor_nonpos (le_of_lt h)
    omega

/-- C3: in tick mode (`use_ticks = false`) `update` runs the loop body
`step(sim_dt)` exactly `max 1 ⌊frame_dt / sim_dt⌋` times, discarding the
fractional remainder (no accumulator is read or written); in single-tick
mode it calls `step(sim_dt)` exactly once regardless of `frame_dt`.  The
second conjunct records that `step` never changes `sim_dt`, so every
iteration of the loop passes the same `sim_dt` value. -/
theorem C3_update_tick_counts (sq : ℚ → ℚ) (w : PhysicsWorld) (fd : ℚ) :
    update sq w fd =
      Nat.iterate (fun v => step sq v v.sim_dt)
        (if w.use_ticks then 1 else (max 1 (Int.floor (fd / w.sim_dt))).toNat) w ∧
    ∀ (v : PhysicsWorld) (dt : ℚ), (step sq v dt).sim_dt = v.sim_dt := by
  constructor
  · unfold update
    by_cases hut : w.use_ticks
    · rw [if_neg (by simp [hut]), if_pos hut]
      rfl
    · rw [if_pos (by simp [hut]), if_neg hut]
      dsimp only
      rw [max_one_truncInt]
  · exact step_sim_dt sq

/-- A single-particle implicit-Euler world (solver enum index 6). -/
def wImplicit : PhysicsWorld :=
  { PhysicsWorld.init with
    current_solver := .implicitEuler, sub_steps := 1,
    gravity := ⟨0, 0, 0⟩, wind := ⟨0, 0, 0⟩,
    particles := [{ pos := ⟨0, 0, 0⟩, old_pos := ⟨0, 0, 0⟩, acc := ⟨0, 0, 0⟩,
                    vel := ⟨1, 0, 0⟩, mass := 1, is_pinned := 0, prev_dt := 1/60 }] }

/-- C1, counterexample: with the Implicit Euler solver selected (enum
index 6), the velocity after one `step` is NOT
`(vel + acc·dt)/(1 + dt)` as the claim states: on this world it is
`vel·global_damping = (99/100, 0, 0)` (the symplectic-Euler routine runs
instead), while the claimed formula gives `(20/21, 0, 0)`. -/
theorem C1_counterexample :
    ((step sqZero wImplicit (1/20)).particles.getD 0 defaultParticle).vel ≠
      ((wImplicit.particles.getD 0 defaultParticle).vel +
        ((apply_forces wImplicit).particles.getD 0 defaultParticle).acc.smul (1/20)).smul
        (1 / (1 + 1/20)) := by
  norm_num [step, subStep, wImplicit, PhysicsWorld.init, apply_forces, apply_forces_p,
    solve_springs, integrate_symplectic_euler, symplectic_euler_p, solve_constraints,
    solve_constraints_p, defaultParticle, Nat.iterate, sqZero, Vec3.smul, Vec3.add_def,
    Vec3.sub_def, min_def]

/-- C1 (amended): when the active integrator is Implicit Euler (enum
index 6), each sub-step actually runs the symplectic-Euler routine —
forces, then `vel = (vel + acc·dt)·global_damping; pos += vel·dt` (with
`old_pos` snapped to the new position and `acc` reset), then the
constraint pass; the dedicated `integrate_implicit_euler` routine is
never dispatched, and no `1/(1+dt)` factor appears. -/
theorem C1_implicit_euler_runs_symplectic (sq : ℚ → ℚ) (sd : ℚ) (w : PhysicsWorld)
    (p : Particle)
    (hs : w.current_solver = SolverType.ofInt 6)
    (hp : ¬ p.is_pinned > 1/2) :
    SolverType.ofInt 6 = SolverType.implicitEuler ∧
    subStep sq sd w =
      solve_constraints (integrate_symplectic_euler (solve_springs sq (apply_forces w) sd) sd) ∧
    symplectic_euler_p w.global_damping sd p =
      { p with vel := (p.vel + p.acc.smul sd).smul w.global_damping,
               pos := p.pos + ((p.vel + p.acc.smul sd).smul w.global_damping).smul sd,
               old_pos := p.pos + ((p.vel + p.acc.smul sd).smul w.global_damping).smul sd,
               acc := (⟨0, 0, 0⟩ : Vec3) } := by
  have hs' : w.current_solver = SolverType.implicitEuler := hs
  refine ⟨rfl, ?_, ?_⟩
  · simp [subStep, hs']
  · unfold symplectic_euler_p
    rw [if_neg hp]

/-- C1, witness: the amended dispatch and update rule at a concrete
world and particle. -/
theorem C1_witness :
    SolverType.ofInt 6 = SolverType.implicitEuler ∧
    subStep sqZero (1/20) wImplicit =
      solve_constraints
        (integrate_symplectic_euler (solve_springs sqZero (apply_forces wImplicit) (1/20)) (1/20)) ∧
    symplectic_euler_p wImplicit.global_damping (1/20) defaultParticle =
      { defaultParticle with
        vel := (defaultParticle.vel + defaultParticle.acc.smul (1/20)).smul
          wImplicit.global_damping,
        pos := defaultParticle.pos +
          ((defaultParticle.vel + defaultParticle.acc.smul (1/20)).smul
            wImplicit.global_damping).smul (1/20),
        old_pos := defaultParticle.pos +
          ((defaultParticle.vel + defaultParticle.acc.smul (1/20)).smul
            wImplicit.global_damping).smul (1/20),
        acc := (⟨0, 0, 0⟩ : Vec3) } :=
  C1_implicit_euler_runs_symplectic sqZero (1/20) wImplicit defaultParticle
    (by norm_num [wImplicit, PhysicsWorld.init, SolverType.ofInt])
    (by norm_num [defaultParticle])

/-! ### C4: the claimed sub-step shape, written from the spec's words -/

/-- The sub-step shape asserted by claim C4 (refinement spec, written
from the claim's words, to be compared with the source-translated
`subStep`): each sub-step runs force evaluation, then the dispatched
integrator, then the constraint pass — except that the constraint pass
is skipped when the active integrator is RK2 or RK4, and for Velocity
Verlet the constraint pass and the (re-)evaluation of forces run between
the integrator's two half-step passes instead of after a single
integrator call. -/
def claimedSubStep (sq : ℚ → ℚ) (sub_dt : ℚ) (w : PhysicsWorld) : PhysicsWorld :=
  if w.current_solver = .velocityVerlet then
    integrate_velocity_verlet_pass2
      (solve_springs sq
        (apply_forces (solve_constraints (integrate_velocity_verlet_pass1 w sub_dt))) sub_dt)
      sub_dt
  else
    let w1 := solve_springs sq (apply_forces w) sub_dt
    let w2 :=
      match w.current_solver with
      | .explicitEuler => integrate_explicit_euler w1 sub_dt
      | .symplecticEuler => integrate_symplectic_euler w1 sub_dt
      | .verlet => integrate_verlet w1 sub_dt
      | .tcVerlet => integrate_tc_verlet w1 sub_dt
      | .rk2 => integrate_rk2 sq w1 sub_dt
      | .rk4 => integrate_rk4 sq w1 sub_dt
      | .implicitEuler => integrate_symplectic_euler w1 sub_dt
      | .velocityVerlet => w1
    if w.current_solver = .rk2 ∨ w.current_solver = .rk4 then w2 else solve_constraints w2

/-- The step shape asserted by claim C4: clamp `dt` at `0.05`, divide it
into `sub_steps` equal sub-steps, and run `claimedSubStep` that many
times. -/
def claimedStep (sq : ℚ → ℚ) (w : PhysicsWorld) (dt : ℚ) : PhysicsWorld :=
  Nat.iterate (claimedSubStep sq (min dt (1/20) / (w.sub_steps : ℚ))) w.sub_steps w

theorem subStep_eq_claimed (sq : ℚ → ℚ) (sd : ℚ) (v : PhysicsWorld) :
    subStep sq sd v = claimedSubStep sq sd v := by
  cases hcs : v.current_solver <;> simp [subStep, claimedSubStep, hcs]

/-- C4: `step(dt)` is exactly the claimed shape — `dt` clamped to at most
`0.05`, divided into `sub_steps` equal sub-steps, each sub-step running
Force Evaluator → Integrator → Constraint Solver, with the constraint
pass skipped for RK2/RK4 and, for Velocity Verlet, the constraint pass
and the force evaluation interleaved between the two half-step passes. -/
theorem C4_step_structure (sq : ℚ → ℚ) (w : PhysicsWorld) (dt : ℚ) :
    step sq w dt = claimedStep sq w dt := by
  unfold step claimedStep
  dsimp only
  rw [funext (subStep_eq_claimed sq (min dt (1/20) / (w.sub_steps : ℚ)))]

/-! ### Counting sums over index ranges (for the cloth topology claim) -/

theorem sum_map_add (l : List Nat) (f g : Nat → Nat) :
    (l.map (fun x => f x + g x)).sum = (l.map f).sum + (l.map g).sum := by
  induction l with
  | nil => rfl
  | cons a t ih =>
      simp only [List.map_cons, List.sum_cons, ih]
      omega

theorem sum_map_const (n c : Nat) : ((List.range n).map (fun _ => c)).sum = n * c := by
  induction n with
  | zero => simp
  | succ n ih =>
      rw [List.range_succ]
      simp only [List.map_append, List.sum_append, ih, List.map_cons, List.map_nil,
        List.sum_cons, List.sum_nil]
      ring

theorem sum_map_if_pos (n a : Nat) :
    ((List.range n).map (fun x => if 0 < x then a else 0)).sum = (n - 1) * a := by
  induction n with
  | zero => simp
  | succ n ih =>
      rw [List.range_succ]
      simp only [List.map_append, List.sum_append, ih, List.map_cons, List.map_nil,
        List.sum_cons, List.sum_nil]
      cases n with
      | zero => simp
      | succ m =>
          rw [if_pos (Nat.succ_pos m)]
          simp only [Nat.succ_sub_one]
          ring

theorem sum_map_if_lt (n m a : Nat) :
    ((List.range n).map (fun x => if x < m then a else 0)).sum = min n m * a := by
  induction n with
  | zero => simp
  | succ n ih =>
      rw [List.range_succ]
      simp only [List.map_append, List.sum_append, ih, List.map_cons, List.map_nil,
        List.sum_cons, List.sum_nil]
      by_cases h : n < m
      · rw [if_pos h, show min (n+1) m = min n m + 1 by omega]
        ring
      · rw [if_neg h, show min (n+1) m = min n m by omega]
        ring

/-- Counting a single `x = a` hit in a range. -/
theorem countP_range_eq_single (m a : Nat) :
    (List.range m).countP (fun x => decide (x = a)) = if a < m then 1 else 0 := by
  induction m with
  | zero => rfl
  | succ m ih =>
      rw [List.range_succ, List.countP_append, ih]
      by_cases h : m = a
      · subst h
        rw [if_neg (lt_irrefl m), if_pos (Nat.lt_succ_self m)]
        simp
      · have : (List.countP (fun x => decide (x = a)) [m]) = 0 := by
          simp [h]
        rw [this]
        by_cases h2 : a < m
        · rw [if_pos h2, if_pos (Nat.lt_succ_of_lt h2)]
        · rw [if_neg h2, if_neg (by omega)]

/-- The top-row pin predicate hits exactly the two corners when `w ≥ 2`. -/
theorem countP_corners (w : Nat) (hw : 2 ≤ w) :
    (List.range w).countP (fun x => decide (x = 0 ∨ x = w - 1)) = 2 := by
  obtain ⟨w1, rfl⟩ : ∃ w1, w = w1 + 1 := ⟨w - 1, by omega⟩
  rw [List.range_succ, List.countP_append]
  have h1 : (List.range w1).countP (fun x => decide (x = 0 ∨ x = w1 + 1 - 1)) =
      (List.range w1).countP (fun x => decide (x = 0)) := by
    apply List.countP_congr
    intro a ha
    have : a < w1 := List.mem_range.1 ha
    simp only [Nat.add_sub_cancel]
    have : ¬ a = w1 := by omega
    simp [this]
  have h2 : (List.range w1).countP (fun x => decide (x = 0)) = 1 := by
    rw [countP_range_eq_single]
    rw [if_pos (by omega)]
  have h3 : List.countP (fun x => decide (x = 0 ∨ x = w1 + 1 - 1)) [w1] = 1 := by
    simp
  rw [h1, h2, h3]

/-! ### Spring counting through the cloth build -/

theorem add_spring_countP (q : Spring → Bool) (k damp : ℚ) (st : BuildState)
    (p1 p2 : Int) (len : ℚ) :
    (add_spring k damp st p1 p2 len).springs.countP q =
      st.springs.countP q + (if q ⟨p1, p2, len, k, damp⟩ then 1 else 0) := by
  simp [add_spring, List.countP_append, List.countP_cons]

theorem clothCell_countP (q : Spring → Bool) (k damp sqrt2 sep : ℚ) (w y x : Nat)
    (st : BuildState) (cqs cqd : Nat)
    (hqs : ∀ p1 p2 : Int, (if q ⟨p1, p2, sep, k, damp⟩ then 1 else 0) = cqs)
    (hqd : ∀ p1 p2 : Int, (if q ⟨p1, p2, sqrt2 * sep, k, damp⟩ then 1 else 0) = cqd) :
    (clothCell k damp sqrt2 sep w st y x).springs.countP q =
      st.springs.countP q + ((if 0 < x then cqs else 0) + ((if 0 < y then cqs else 0) +
        ((if 0 < x ∧ 0 < y then cqd else 0) + (if x < w - 1 ∧ 0 < y then cqd else 0)))) := by
  unfold clothCell
  dsimp only
  by_cases h1 : 0 < x <;> by_cases h2 : 0 < y <;> by_cases h4 : x < w - 1 <;>
    simp [h1, h2, h4, add_spring_countP, hqs, hqd] <;> omega

theorem row_foldl_countP (q : Spring → Bool) (k damp sqrt2 sep : ℚ) (w y : Nat)
    (cqs cqd : Nat)
    (hqs : ∀ p1 p2 : Int, (if q ⟨p1, p2, sep, k, damp⟩ then 1 else 0) = cqs)
    (hqd : ∀ p1 p2 : Int, (if q ⟨p1, p2, sqrt2 * sep, k, damp⟩ then 1 else 0) = cqd)
    (xs : List Nat) (st : BuildState) :
    ((xs.foldl (fun st2 x => clothCell k damp sqrt2 sep w st2 y x) st).springs.countP q) =
      st.springs.countP q +
        (xs.map (fun x => (if 0 < x then cqs else 0) + ((if 0 < y then cqs else 0) +
          ((if 0 < x ∧ 0 < y then cqd else 0) +
            (if x < w - 1 ∧ 0 < y then cqd else 0))))).sum := by
  induction xs generalizing st with
  | nil => simp
  | cons a t ih =>
      rw [List.foldl_cons, ih, clothCell_countP q k damp sqrt2 sep w y a st cqs cqd hqs hqd]
      simp only [List.map_cons, List.sum_cons]
      omega

theorem clothBuild_countP (q : Spring → Bool) (k damp sqrt2 sep : ℚ) (w h : Nat)
    (cqs cqd : Nat)
    (hqs : ∀ p1 p2 : Int, (if q ⟨p1, p2, sep, k, damp⟩ then 1 else 0) = cqs)
    (hqd : ∀ p1 p2 : Int, (if q ⟨p1, p2, sqrt2 * sep, k, damp⟩ then 1 else 0) = cqd) :
    (clothBuild k damp sqrt2 sep w h).springs.countP q =
      ((List.range h).map (fun y =>
        ((List.range w).map (fun x => (if 0 < x then cqs else 0) + ((if 0 < y then cqs else 0) +
          ((if 0 < x ∧ 0 < y then cqd else 0) +
            (if x < w - 1 ∧ 0 < y then cqd else 0))))).sum)).sum := by
  unfold clothBuild
  have main : ∀ (ys : List Nat) (st : BuildState),
      ((ys.foldl
        (fun st y => (List.range w).foldl
          (fun st2 x => clothCell k damp sqrt2 sep w st2 y x) st) st).springs.countP q) =
        st.springs.countP q +
          (ys.map (fun y =>
            ((List.range w).map (fun x => (if 0 < x then cqs else 0) +
              ((if 0 < y then cqs else 0) + ((if 0 < x ∧ 0 < y then cqd else 0) +
                (if x < w - 1 ∧ 0 < y then cqd else 0))))).sum)).sum := by
    intro ys
    induction ys with
    | nil => intro st; simp
    | cons a t ih =>
        intro st
        rw [List.foldl_cons, ih, row_foldl_countP q k damp sqrt2 sep w a cqs cqd hqs hqd]
        simp only [List.map_cons, List.sum_cons]
        omega
  rw [main]
  simp

/-- Closed form of the per-row weighted cell sums. -/
theorem rowSum_eval (cqs cqd w y : Nat) :
    ((List.range w).map (fun x => (if 0 < x then cqs else 0) + ((if 0 < y then cqs else 0) +
      ((if 0 < x ∧ 0 < y then cqd else 0) + (if x < w - 1 ∧ 0 < y then cqd else 0))))).sum =
      if 0 < y then (w - 1) * cqs + (w * cqs + ((w - 1) * cqd + (w - 1) * cqd)) else
        (w - 1) * cqs := by
  by_cases hy : 0 < y
  · simp only [hy, if_true, and_true, true_and]
    rw [sum_map_add _ (fun x => if 0 < x then cqs else 0), sum_map_add _ (fun _ => cqs),
      sum_map_add _ (fun x => if 0 < x then cqd else 0), sum_map_if_pos, sum_map_const,
      sum_map_if_pos, sum_map_if_lt, show min w (w - 1) = w - 1 by omega]
  · have hy0 : y = 0 := by omega
    subst hy0
    simp only [lt_irrefl, if_false, and_false, add_zero]
    rw [sum_map_if_pos]

theorem rows_total (A B h : Nat) (hh : 1 ≤ h) :
    ((List.range h).map (fun y => if 0 < y then B else A)).sum = A + (h - 1) * B := by
  obtain ⟨h1, rfl⟩ : ∃ h1, h = h1 + 1 := ⟨h - 1, by omega⟩
  rw [List.range_succ_eq_map]
  simp only [List.map_cons, List.sum_cons, lt_irrefl, if_false, List.map_map]
  have hmap : (List.range h1).map ((fun y => if 0 < y then B else A) ∘ Nat.succ) =
      (List.range h1).map (fun _ => B) := by
    apply List.map_congr_left
    intro a _
    simp [Function.comp, Nat.succ_pos]
  rw [hmap, sum_map_const]
  simp

theorem clothBuild_springs_length (k damp sqrt2 sep : ℚ) (w h : Nat)
    (hh : 1 ≤ h) :
    (clothBuild k damp sqrt2 sep w h).springs.length =
      (w - 1) * h + w * (h - 1) + (w - 1) * (h - 1) * 2 := by
  have hlen : (clothBuild k damp sqrt2 sep w h).springs.length =
      (clothBuild k damp sqrt2 sep w h).springs.countP (fun _ => true) := by
    simp [List.countP_true]
  rw [hlen, clothBuild_countP (fun _ => true) k damp sqrt2 sep w h 1 1
    (fun _ _ => rfl) (fun _ _ => rfl)]
  have hrows : (List.range h).map (fun y =>
      ((List.range w).map (fun x => (if 0 < x then 1 else 0) + ((if 0 < y then 1 else 0) +
        ((if 0 < x ∧ 0 < y then 1 else 0) +
          (if x < w - 1 ∧ 0 < y then 1 else 0))))).sum) =
      (List.range h).map (fun y => if 0 < y then
        (w - 1) * 1 + (w * 1 + ((w - 1) * 1 + (w - 1) * 1)) else (w - 1) * 1) := by
    apply List.map_congr_left
    intro y _
    exact rowSum_eval 1 1 w y
  rw [hrows, rows_total _ _ h hh]
  obtain ⟨h1, rfl⟩ : ∃ h1, h = h1 + 1 := ⟨h - 1, by omega⟩
  rcases Nat.eq_zero_or_pos w with hw0 | hw1
  · subst hw0
    simp
  · obtain ⟨w1, rfl⟩ : ∃ w1, w = w1 + 1 := ⟨w - 1, by omega⟩
    simp only [Nat.add_sub_cancel]
    ring

theorem clothBuild_diag_count (k damp sqrt2 sep : ℚ) (w h : Nat)
    (hh : 1 ≤ h) (hne : sqrt2 * sep ≠ sep) :
    (clothBuild k damp sqrt2 sep w h).springs.countP
        (fun s => decide (s.rest_len = sqrt2 * sep)) = (w - 1) * (h - 1) * 2 := by
  rw [clothBuild_countP (fun s => decide (s.rest_len = sqrt2 * sep)) k damp sqrt2 sep w h 0 1
    (fun _ _ => by simp [Ne.symm hne]) (fun _ _ => by simp)]
  have hrows : (List.range h).map (fun y =>
      ((List.range w).map (fun x => (if 0 < x then 0 else 0) + ((if 0 < y then 0 else 0) +
        ((if 0 < x ∧ 0 < y then 1 else 0) +
          (if x < w - 1 ∧ 0 < y then 1 else 0))))).sum) =
      (List.range h).map (fun y => if 0 < y then
        (w - 1) * 0 + (w * 0 + ((w - 1) * 1 + (w - 1) * 1)) else (w - 1) * 0) := by
    apply List.map_congr_left
    intro y _
    exact rowSum_eval 0 1 w y
  rw [hrows, rows_total _ _ h hh]
  obtain ⟨h1, rfl⟩ : ∃ h1, h = h1 + 1 := ⟨h - 1, by omega⟩
  rcases Nat.eq_zero_or_pos w with hw0 | hw1
  · subst hw0
    simp
  · obtain ⟨w1, rfl⟩ : ∃ w1, w = w1 + 1 := ⟨w - 1, by omega⟩
    simp only [Nat.add_sub_cancel]
    ring

/-! ### Particle grid lemmas -/

theorem clothParticles_length (sx sy sz sep : ℚ) (w h : Nat) :
    (clothParticles sx sy sz sep w h).length = h * w := by
  simp [clothParticles, List.flatMap, Function.comp_def, sum_map_const]

theorem countP_flatMap_particles (l : List Nat) (f : Nat → List Particle)
    (q : Particle → Bool) :
    ((l.flatMap f).countP q) = (l.map (fun a => (f a).countP q)).sum := by
  simp [List.flatMap, List.countP_flatten, Function.comp_def]

theorem clothParticles_pinned_count (sx sy sz sep : ℚ) (w h : Nat)
    (hw : 2 ≤ w) (hh : 1 ≤ h) :
    (clothParticles sx sy sz sep w h).countP (fun p => decide (p.is_pinned > 1/2)) = 2 := by
  unfold clothParticles
  rw [countP_flatMap_particles]
  have hrow : ∀ y, ((List.range w).map
      (fun x => mkClothParticle sx sy sz sep w y x)).countP
        (fun p => decide (p.is_pinned > 1/2)) =
      (List.range w).countP (fun x => decide (y = 0 ∧ (x = 0 ∨ x = w - 1))) := by
    intro y
    rw [List.countP_map]
    apply List.countP_congr
    intro x _
    by_cases hc : y = 0 ∧ (x = 0 ∨ x = w - 1) <;>
      simp [Function.comp, mkClothParticle, hc] <;> norm_num
  have hmap : (List.range h).map (fun y => ((List.range w).map
      (fun x => mkClothParticle sx sy sz sep w y x)).countP
        (fun p => decide (p.is_pinned > 1/2))) =
      (List.range h).map (fun y => if 0 < y then 0 else 2) := by
    apply List.map_congr_left
    intro y _
    rw [hrow y]
    by_cases hy : 0 < y
    · rw [if_pos hy]
      apply List.countP_eq_zero.2
      intro a _
      simp
      omega
    · have hy0 : y = 0 := by omega
      subst hy0
      rw [if_neg (lt_irrefl 0)]
      have : (List.range w).countP (fun x => decide (0 = 0 ∧ (x = 0 ∨ x = w - 1))) =
          (List.range w).countP (fun x => decide (x = 0 ∨ x = w - 1)) := by
        apply List.countP_congr
        intro a _
        simp
      rw [this]
      exact countP_corners w hw
  rw [hmap, rows_total 2 0 h hh]
  simp

theorem clothParticles_getD_row0 (sx sy sz sep : ℚ) (w h : Nat) (x : Nat)
    (hx : x < w) (hh : 1 ≤ h) :
    (clothParticles sx sy sz sep w h).getD x defaultParticle =
      mkClothParticle sx sy sz sep w 0 x := by
  unfold clothParticles
  obtain ⟨h1, rfl⟩ : ∃ h1, h = h1 + 1 := ⟨h - 1, by omega⟩
  rw [List.range_succ_eq_map]
  rw [show ((0 :: (List.range h1).map Nat.succ).flatMap
      (fun y => (List.range w).map (fun x => mkClothParticle sx sy sz sep w y x))) =
      ((List.range w).map (fun x => mkClothParticle sx sy sz sep w 0 x)) ++
        (((List.range h1).map Nat.succ).flatMap
          (fun y => (List.range w).map (fun x => mkClothParticle sx sy sz sep w y x)))
    from rfl]
  rw [List.getD_eq_getElem?_getD, List.getElem?_append_left (by simpa using hx)]
  rw [List.getElem?_map, List.getElem?_range hx]
  rfl

/-- C6 (amended): for every width `w ≥ 2` and height `h ≥ 1`, the cloth
grid has exactly `w*h` particles, exactly the two top-corner particles
(indices `0` and `w-1`) pinned, and exactly
`(w-1)*h + w*(h-1) + (w-1)*(h-1)*2` springs, of which (whenever the
diagonal rest length `sq 2 * sep` differs from `sep`) exactly
`(w-1)*(h-1)*2` are diagonal shear springs with rest length
`sq 2 * sep`, the float-sqrt image of 2 times the spacing.  (For `w = 1`
the two top corners coincide and exactly one particle is pinned, which
is why `w ≥ 2` is required.) -/
theorem C6_cloth_topology (sq : ℚ → ℚ) (wld : PhysicsWorld) (sx sy sz sep k damp : ℚ)
    (w h : Nat) (hw : 2 ≤ w) (hh : 1 ≤ h) :
    (create_cloth sq wld sx sy sz w h sep k damp).particles.length = w * h ∧
    (create_cloth sq wld sx sy sz w h sep k damp).particles.countP
        (fun p => decide (p.is_pinned > 1/2)) = 2 ∧
    is_pinned (create_cloth sq wld sx sy sz w h sep k damp) 0 = true ∧
    is_pinned (create_cloth sq wld sx sy sz w h sep k damp) ((w : Int) - 1) = true ∧
    (create_cloth sq wld sx sy sz w h sep k damp).springs.length =
      (w - 1) * h + w * (h - 1) + (w - 1) * (h - 1) * 2 ∧
    (sq 2 * sep ≠ sep →
      (create_cloth sq wld sx sy sz w h sep k damp).springs.countP
          (fun s => decide (s.rest_len = sq 2 * sep)) = (w - 1) * (h - 1) * 2) := by
  have hparts : (create_cloth sq wld sx sy sz w h sep k damp).particles =
      clothParticles sx sy sz sep w h := rfl
  have hsprings : (create_cloth sq wld sx sy sz w h sep k damp).springs =
      (clothBuild k damp (sq 2) sep w h).springs := rfl
  have hlen : (create_cloth sq wld sx sy sz w h sep k damp).particles.length = h * w := by
    rw [hparts, clothParticles_length]
  refine ⟨by rw [hlen]; ring, ?_, ?_, ?_, ?_, ?_⟩
  · rw [hparts]
    exact clothParticles_pinned_count sx sy sz sep w h hw hh
  · unfold is_pinned
    rw [if_pos ?_]
    · rw [hparts, show (0 : Int).toNat = 0 from rfl,
        clothParticles_getD_row0 sx sy sz sep w h 0 (by omega) hh]
      simp [mkClothParticle]
      norm_num
    · constructor
      · omega
      · rw [hlen]
        have hge : w ≤ h * w := Nat.le_mul_of_pos_left w (by omega)
        simp only [u32of]
        omega
  · unfold is_pinned
    rw [if_pos ?_]
    · rw [hparts, show ((w : Int) - 1).toNat = w - 1 by omega,
        clothParticles_getD_row0 sx sy sz sep w h (w - 1) (by omega) hh]
      simp [mkClothParticle]
      norm_num
    · constructor
      · omega
      · rw [hlen]
        have hge : w ≤ h * w := Nat.le_mul_of_pos_left w (by omega)
        simp only [u32of]
        omega
  · rw [hsprings]
    exact clothBuild_springs_length k damp (sq 2) sep w h hh
  · intro hne
    rw [hsprings]
    exact clothBuild_diag_count k damp (sq 2) sep w h hh hne

/-- C6, counterexample: for `w = 1` (claim says every `w ≥ 1`) the grid
has exactly one pinned particle, not two — the two "top corners"
coincide at `x = 0 = w - 1`. -/
theorem C6_counterexample :
    (create_cloth sqZero PhysicsWorld.init 0 0 0 1 1 1 1 1).particles.countP
        (fun p => decide (p.is_pinned > 1/2)) ≠ 2 := by
  norm_num [create_cloth, clothParticles, mkClothParticle, List.flatMap, List.range_succ,
    List.countP_cons, sqZero]

/-- C6, witness: the amended topology at `w = 4, h = 3`: 12 particles,
2 pinned (indices 0 and 3), 29 springs, 12 of them diagonal. -/
theorem C6_witness :
    (create_cloth sqZero PhysicsWorld.init 0 0 0 4 3 1 10 (1/2)).particles.length = 12 ∧
    (create_cloth sqZero PhysicsWorld.init 0 0 0 4 3 1 10 (1/2)).particles.countP
        (fun p => decide (p.is_pinned > 1/2)) = 2 ∧
    is_pinned (create_cloth sqZero PhysicsWorld.init 0 0 0 4 3 1 10 (1/2)) 0 = true ∧
    is_pinned (create_cloth sqZero PhysicsWorld.init 0 0 0 4 3 1 10 (1/2)) ((4 : Int) - 1)
      = true ∧
    (create_cloth sqZero PhysicsWorld.init 0 0 0 4 3 1 10 (1/2)).springs.length = 29 ∧
    (create_cloth sqZero PhysicsWorld.init 0 0 0 4 3 1 10 (1/2)).springs.countP
        (fun s => decide (s.rest_len = sqZero 2 * 1)) = 12 := by
  have h := C6_cloth_topology sqZero PhysicsWorld.init 0 0 0 1 10 (1/2) 4 3
    (by norm_num) (by norm_num)
  refine ⟨by simpa using h.1, h.2.1, h.2.2.1, h.2.2.2.1, by simpa using h.2.2.2.2.1,
    by simpa using h.2.2.2.2.2 (by norm_num [sqZero])⟩

end Sim
